import Mathlib

/-!
Verification of the pagination-reconciliation layer of the employee-directory
front end (`src/services/services.ts`).

The server paginates employees in fixed pages of `SERVER_PAGE_SIZE` records,
while the UI grid uses a user-selectable client page size.  `useEmployees`
computes which server page to fetch (`pageOnServer`), fetches it, and slices
the returned array to the exact client-page boundaries.  `usePrefetchEmployees`
computes the set of client pages to prefetch.  The mutation hooks
(`useCreateEmployee` / `useDeleteEmployee` / `useUpdateEmployee`) each issue
one REST call and invalidate the cached employee list on success.

Definitions below are shallow embeddings of the TypeScript source.  JavaScript
strings are modelled as `List Char`, arrays as `List`, and the non-negative
integer arithmetic of the pagination code as `Nat` (all page indices and sizes
in the program are non-negative; prefetch page indices, which can go negative
in the source via `lastPage - k`, are modelled as `Int`).
-/

/-- `pageOnServer` computation of `useEmployees` (services.ts line 57):
`Math.floor((pageOnClient * pageSizeOnClient) / SERVER_PAGE_SIZE)`.
`sps` is the `SERVER_PAGE_SIZE` constant (read from the environment at
module load; kept as a parameter here). -/
def resolveServerPage (sps clientPageIndex clientPageSize : Nat) : Nat :=
  clientPageIndex * clientPageSize / sps

/-- JavaScript `Array.prototype.slice(start, end)` for non-negative
arguments: the elements at indices `[start, min(end, length))`. -/
def jsSlice {α : Type} (l : List α) (start fin : Nat) : List α :=
  (l.drop start).take (fin - start)

/-- The `start` offset of the client-page slice (services.ts line 86):
`(pageOnClient * pageSizeOnClient) % SERVER_PAGE_SIZE`. -/
def sliceStart (sps clientPageIndex clientPageSize : Nat) : Nat :=
  clientPageIndex * clientPageSize % sps

/-- The `end` offset of the client-page slice (services.ts lines 88-90):
`((pageOnClient + 1) * pageSizeOnClient) % SERVER_PAGE_SIZE || SERVER_PAGE_SIZE`;
the JavaScript `||` replaces a falsy (zero) modulus with `SERVER_PAGE_SIZE`. -/
def sliceEnd (sps clientPageIndex clientPageSize : Nat) : Nat :=
  if (clientPageIndex + 1) * clientPageSize % sps = 0 then sps
  else (clientPageIndex + 1) * clientPageSize % sps

/-- The slicing step of `useEmployees` (services.ts line 92):
`query.data?.employees?.slice(start, end)` applied to the records of the
fetched server page. -/
def sliceServerPage {α : Type} (sps : Nat) (records : List α)
    (clientPageIndex clientPageSize : Nat) : List α :=
  jsSlice records (sliceStart sps clientPageIndex clientPageSize)
    (sliceEnd sps clientPageIndex clientPageSize)

/-- Modelled from the spec: the backend's fixed-size pagination (the REST
backend / MockServer is not under src/).  Spec section 3 invariant: "for a
fixed sort/filter configuration, the concatenation of all ServerPages in
index order equals the full sorted/filtered employee list", so server page
`k` of the full list `l` is the window of `sps` records starting at
`k * sps`. -/
def serverPage {α : Type} (sps : Nat) (l : List α) (k : Nat) : List α :=
  (l.drop (k * sps)).take sps

/-- The full client-page pipeline: resolve the server page for a client page
request, take that server page of the full list `l`, and slice it to the
client-page boundaries (`useEmployees` composed end to end). -/
def clientPage {α : Type} (sps clientPageSize : Nat) (l : List α)
    (clientPageIndex : Nat) : List α :=
  sliceServerPage sps (serverPage sps l (resolveServerPage sps clientPageIndex clientPageSize))
    clientPageIndex clientPageSize

/-- Concatenation of the client pages `0, 1, ..., n-1` (the round-trip
reconstruction of the list from sliced fetches). -/
def reconstructPages {α : Type} (sps clientPageSize n : Nat) (l : List α) : List α :=
  ((List.range n).map (clientPage sps clientPageSize l)).flatten

section PaginationLemmas

variable {α : Type}

/-- When the client page size divides the server page size, the start offset
leaves room for a full client page inside the server page. -/
theorem sliceStart_add_le (sps s i : Nat) (h1 : 0 < s) (h2 : s ∣ sps) (h3 : s ≤ sps) :
    sliceStart sps i s + s ≤ sps := by
  have hsps : 0 < sps := lt_of_lt_of_le h1 h3
  have hr : i * s % sps < sps := Nat.mod_lt _ hsps
  have hsr : s ∣ i * s % sps := (Nat.dvd_mod_iff h2).mpr (dvd_mul_left s i)
  obtain ⟨a, ha⟩ := hsr
  obtain ⟨b, hb⟩ := h2
  have hab : a < b := by
    by_contra hc
    push_neg at hc
    have : s * b ≤ s * a := Nat.mul_le_mul_left s hc
    omega
  have hsab : s * (a + 1) ≤ s * b := Nat.mul_le_mul_left s hab
  unfold sliceStart
  nlinarith

/-- When the client page size divides the server page size, the start and end
offsets never wrap: the slice `end` equals `start + clientPageSize`. -/
theorem sliceEnd_eq_start_add (sps s i : Nat) (h1 : 0 < s) (h2 : s ∣ sps) (h3 : s ≤ sps) :
    sliceEnd sps i s = sliceStart sps i s + s := by
  have hsps : 0 < sps := lt_of_lt_of_le h1 h3
  have hle : i * s % sps + s ≤ sps := sliceStart_add_le sps s i h1 h2 h3
  have hmod : (i + 1) * s % sps = (i * s % sps + s) % sps := by
    conv_lhs => rw [add_mul, one_mul]
    rw [Nat.add_mod, Nat.add_mod (i * s % sps) s, Nat.mod_mod_of_dvd _ dvd_rfl]
  unfold sliceEnd sliceStart
  rcases Nat.lt_or_ge (i * s % sps + s) sps with hlt | hge
  · rw [hmod, Nat.mod_eq_of_lt hlt, if_neg (by omega)]
  · have heq : i * s % sps + s = sps := le_antisymm hle hge
    rw [hmod, heq, Nat.mod_self, if_pos rfl]

/-- Core pagination correctness: when the client page size divides the server
page size, resolving the server page and slicing it yields exactly the
`clientPageSize`-wide window of the full list starting at
`clientPageIndex * clientPageSize`. -/
theorem clientPage_eq_window (sps s : Nat) (l : List α) (i : Nat)
    (h1 : 0 < s) (h2 : s ∣ sps) (h3 : s ≤ sps) :
    clientPage sps s l i = (l.drop (i * s)).take s := by
  have hsps : 0 < sps := lt_of_lt_of_le h1 h3
  have hle : i * s % sps + s ≤ sps := sliceStart_add_le sps s i h1 h2 h3
  unfold clientPage sliceServerPage serverPage resolveServerPage jsSlice
  rw [sliceEnd_eq_start_add sps s i h1 h2 h3]
  unfold sliceStart
  rw [Nat.add_sub_cancel_left]
  rw [List.drop_take, List.drop_drop, List.take_take]
  rw [min_eq_left (by omega)]
  have hcm : i * s / sps * sps = sps * (i * s / sps) := mul_comm _ _
  have hdm := Nat.div_add_mod (i * s) sps
  rw [show i * s / sps * sps + i * s % sps = i * s by omega]

/-- Concatenating the `s`-wide windows `0, ..., n-1` of a list gives its
first `n * s` elements. -/
theorem flatten_windows (s : Nat) (l : List α) :
    ∀ n : Nat, ((List.range n).map (fun i => (l.drop (i * s)).take s)).flatten = l.take (n * s) := by
  intro n
  induction n with
  | zero => simp
  | succ n ih =>
    rw [List.range_succ, List.map_append, List.flatten_append]
    rw [ih]
    simp only [List.map_cons, List.map_nil, List.flatten_cons, List.flatten_nil, List.append_nil]
    rw [Nat.succ_mul, List.take_add]

end PaginationLemmas

/-- C1: for every `clientPageSize` that is positive, at most `SERVER_PAGE_SIZE`
and dividing it evenly, and every `clientPageIndex`, computing the server page
as `floor(clientPageIndex * clientPageSize / SERVER_PAGE_SIZE)` and slicing it
by the `start`/`end` offsets (with a zero `end` modulus replaced by
`SERVER_PAGE_SIZE`) returns exactly the `clientPageSize`-sized contiguous
window of the full list starting at `clientPageIndex * clientPageSize`. -/
theorem resolve_slice_window {α : Type} (sps s i : Nat) (l : List α)
    (h1 : 0 < s) (h2 : s ∣ sps) (h3 : s ≤ sps) :
    sliceServerPage sps (serverPage sps l (resolveServerPage sps i s)) i s
      = (l.drop (i * s)).take s :=
  clientPage_eq_window sps s l i h1 h2 h3

/-- C1 witness: `SERVER_PAGE_SIZE = 25`, `clientPageSize = 5`,
`clientPageIndex = 3` on a 40-element list. -/
theorem resolve_slice_window_witness :
    sliceServerPage 25 (serverPage 25 (List.range 40) (resolveServerPage 25 3 5)) 3 5
      = ((List.range 40).drop 15).take 5 :=
  resolve_slice_window 25 5 3 (List.range 40) (by decide) (by decide) (by decide)

/-- C2 counterexample: with `SERVER_PAGE_SIZE = 25` and `clientPageSize = 10`
(which does not divide 25), concatenating the sliced outputs for client pages
`0..3` of a 40-element list (last client page = ceil(40/10) - 1 = 3) does NOT
reconstruct the list: client page 2 needs rows 20..29, which straddle two
server pages, and the code slices `records.slice(20, 5)`, an empty slice. -/
theorem reconstruct_25_10_counterexample :
    reconstructPages 25 10 4 (List.range 40) ≠ List.range 40 := by decide

/-- C2 (amended): with `SERVER_PAGE_SIZE = 25` and a client page size that
divides it evenly — here `clientPageSize = 5` — concatenating the sliced
outputs for `clientPageIndex = 0` through the last client page
(`ceil(length / 5) - 1`, i.e. `ceil(length / 5)` pages in total) reconstructs
the full list with no gaps and no duplicates. -/
theorem reconstruct_25_5_round_trip {α : Type} (l : List α) :
    reconstructPages 25 5 ((l.length + 4) / 5) l = l := by
  unfold reconstructPages
  have hc : ∀ i : Nat, clientPage 25 5 l i = (l.drop (i * 5)).take 5 :=
    fun i => clientPage_eq_window 25 5 l i (by decide) (by decide) (by decide)
  calc ((List.range ((l.length + 4) / 5)).map (clientPage 25 5 l)).flatten
      = ((List.range ((l.length + 4) / 5)).map (fun i => (l.drop (i * 5)).take 5)).flatten := by
        rw [List.map_congr_left (fun i _ => hc i)]
    _ = l.take ((l.length + 4) / 5 * 5) := flatten_windows 5 l _
    _ = l := List.take_of_length_le (by omega)

/-- C3: the server page index fetched for a client page request is
`floor(clientPageIndex * clientPageSize / SERVER_PAGE_SIZE)`, and when
`clientPageSize = SERVER_PAGE_SIZE` the mapping is the identity:
`resolveServerPage i SERVER_PAGE_SIZE = i`. -/
theorem resolveServerPage_floor (sps i s : Nat) (h : 0 < sps) :
    resolveServerPage sps i s = i * s / sps
      ∧ (s = sps → resolveServerPage sps i s = i) := by
  refine ⟨rfl, fun hs => ?_⟩
  subst hs
  unfold resolveServerPage
  exact Nat.mul_div_cancel _ h

/-- C3 witness: `SERVER_PAGE_SIZE = 25`, `clientPageIndex = 7`,
`clientPageSize = 25`. -/
theorem resolveServerPage_floor_witness :
    resolveServerPage 25 7 25 = 7 :=
  (resolveServerPage_floor 25 7 25 (by decide)).2 rfl

/-- C4: the slice of a server page is `records.slice(start, end)` with
`start = (clientPageIndex * clientPageSize) mod SERVER_PAGE_SIZE` and
`end = ((clientPageIndex + 1) * clientPageSize) mod SERVER_PAGE_SIZE`
(0 replaced by `SERVER_PAGE_SIZE`); when the `end` modulus is 0 and the page
extends past the start offset, the slice runs to the end of the page and is
not empty (in particular for a full page of `SERVER_PAGE_SIZE` records, where
`start < SERVER_PAGE_SIZE` always holds); and when the page holds fewer than
`end` records the slice is truncated at the page's actual length. -/
theorem sliceServerPage_end_boundary {α : Type} (sps s i : Nat) (records : List α) :
    (sliceServerPage sps records i s
        = jsSlice records (i * s % sps)
            (if (i + 1) * s % sps = 0 then sps else (i + 1) * s % sps))
      ∧ ((i + 1) * s % sps = 0 → records.length ≤ sps →
          sliceServerPage sps records i s = records.drop (i * s % sps)
            ∧ (i * s % sps < records.length → sliceServerPage sps records i s ≠ []))
      ∧ (records.length < sliceEnd sps i s →
          sliceServerPage sps records i s = records.drop (i * s % sps)) := by
  have hstart : sliceStart sps i s = i * s % sps := rfl
  refine ⟨rfl, fun hz hlen => ?_, fun hshort => ?_⟩
  · have hend : sliceEnd sps i s = sps := by unfold sliceEnd; rw [if_pos hz]
    have hdrop : (records.drop (i * s % sps)).length = records.length - i * s % sps :=
      List.length_drop ..
    constructor
    · unfold sliceServerPage jsSlice
      rw [hstart, hend]
      exact List.take_of_length_le (by omega)
    · intro hlt
      unfold sliceServerPage jsSlice
      rw [hstart, hend]
      rw [List.take_of_length_le (by omega)]
      intro hnil
      rw [hnil] at hdrop
      simp at hdrop
      omega
  · have hdrop : (records.drop (sliceStart sps i s)).length
        = records.length - sliceStart sps i s := List.length_drop ..
    unfold sliceServerPage jsSlice
    rcases le_or_lt (sliceStart sps i s) (sliceEnd sps i s) with hle | hlt
    · exact List.take_of_length_le (by omega)
    · have hge : records.length ≤ sliceStart sps i s := by omega
      rw [hstart] at hge
      rw [hstart, List.drop_eq_nil_of_le hge, List.take_nil]

/-- C4 witness: `SERVER_PAGE_SIZE = 25`, `clientPageSize = 5`,
`clientPageIndex = 4` on a full 25-record server page (`end` modulus is 0,
slice runs from row 20 to the end of the page and is not empty), and the
truncation clause on a short 22-record page. -/
theorem sliceServerPage_end_boundary_witness :
    (sliceServerPage 25 (List.range 25) 4 5 = (List.range 25).drop 20
        ∧ sliceServerPage 25 (List.range 25) 4 5 ≠ [])
      ∧ sliceServerPage 25 (List.range 22) 4 5 = (List.range 22).drop 20 :=
  ⟨⟨((sliceServerPage_end_boundary 25 5 4 (List.range 25)).2.1
        (by decide) (by decide)).1,
    ((sliceServerPage_end_boundary 25 5 4 (List.range 25)).2.1
        (by decide) (by decide)).2 (by decide)⟩,
    (sliceServerPage_end_boundary 25 5 4 (List.range 22)).2.2 (by decide)⟩

/-- JavaScript `Array.prototype.join(sep)` on a list of strings
(strings modelled as `List Char`). -/
def joinJS (sep : List Char) : List (List Char) → List Char
  | [] => []
  | [x] => x
  | x :: y :: t => x ++ sep ++ joinJS sep (y :: t)

/-- Helper for `String.prototype.split(c)`: the first segment paired with the
remaining segments. -/
def splitOnCharAux (c : Char) : List Char → List Char × List (List Char)
  | [] => ([], [])
  | a :: rest =>
    if a = c then ([], (splitOnCharAux c rest).1 :: (splitOnCharAux c rest).2)
    else (a :: (splitOnCharAux c rest).1, (splitOnCharAux c rest).2)

/-- JavaScript `String.prototype.split(c)` for a single-character separator. -/
def splitJS (c : Char) (s : List Char) : List (List Char) :=
  (splitOnCharAux c s).1 :: (splitOnCharAux c s).2

/-- The filter-string expression at the `useEmployees` call site (services.ts
lines 69-72): `quickFilterValues?.join('_')?.split('/')?.join('-')`; `none`
models an absent (`undefined`) quick-filter list, propagated by `?.`. -/
def encodeQuickFilters (qfv : Option (List (List Char))) : Option (List Char) :=
  qfv.map (fun ts => joinJS ['-'] (splitJS '/' (joinJS ['_'] ts)))

/-- The fallback in `fetchEmployees` (services.ts line 36):
`filters || 'noFilter'` — JavaScript `||` makes both `undefined` and the
empty string fall back to the literal `noFilter`. -/
def orNoFilter (filters : Option (List Char)) : List Char :=
  match filters with
  | none => "noFilter".data
  | some s => if s = [] then "noFilter".data else s

/-- The filter token transmitted in the request path: the call-site encoding
followed by the `fetchEmployees` fallback. -/
def filterParam (qfv : Option (List (List Char))) : List Char :=
  orNoFilter (encodeQuickFilters qfv)

/-- The URL path built by `fetchEmployees` (services.ts lines 32-38):
`${ENDPOINTS.employees}/page/${page}/sort/${sortingField}/${sortingOrder}/filters/${filters || 'noFilter'}`.
The endpoint base (from endpoints.ts, not under src/) is a parameter. -/
def fetchEmployeesPath (endpoint : List Char) (page : Nat)
    (sortingField sortingOrder : List Char) (filters : Option (List Char)) : List Char :=
  endpoint ++ "/page/".data ++ (Nat.repr page).data ++ "/sort/".data ++ sortingField
    ++ "/".data ++ sortingOrder ++ "/filters/".data ++ orNoFilter filters

/-- Stated from the spec's words, for comparison with the source encoding:
the filter tokens, each with every slash replaced by a dash, joined by
underscores. -/
def specFilterEncode (ts : List (List Char)) : List Char :=
  joinJS ['_'] (ts.map (List.map (fun a => if a = '/' then '-' else a)))

theorem splitOnCharAux_cons (c a : Char) (rest : List Char) :
    splitOnCharAux c (a :: rest)
      = if a = c then ([], (splitOnCharAux c rest).1 :: (splitOnCharAux c rest).2)
        else (a :: (splitOnCharAux c rest).1, (splitOnCharAux c rest).2) := rfl

theorem joinJS_cons_cons (sep x y : List Char) (t : List (List Char)) :
    joinJS sep (x :: y :: t) = x ++ sep ++ joinJS sep (y :: t) := rfl

/-- Splitting on a character and rejoining with another is exactly a
character-wise replacement (the idiom `s.split(c).join(d)`). -/
theorem joinJS_splitJS (c d : Char) (s : List Char) :
    joinJS [d] (splitJS c s) = s.map (fun a => if a = c then d else a) := by
  induction s with
  | nil => rfl
  | cons a rest ih =>
    unfold splitJS at ih ⊢
    rw [splitOnCharAux_cons]
    by_cases hac : a = c
    · rw [if_pos hac]
      rw [joinJS_cons_cons]
      rw [ih]
      simp [hac]
    · rw [if_neg hac]
      cases ht : (splitOnCharAux c rest).2 with
      | nil =>
        rw [ht] at ih
        have ih2 : (splitOnCharAux c rest).1 = rest.map (fun a => if a = c then d else a) := ih
        show a :: (splitOnCharAux c rest).1 = List.map _ (a :: rest)
        rw [List.map_cons, if_neg hac, ih2]
      | cons t0 t1 =>
        rw [ht] at ih
        have ih2 : (splitOnCharAux c rest).1 ++ [d] ++ joinJS [d] (t0 :: t1)
            = rest.map (fun a => if a = c then d else a) := ih
        rw [joinJS_cons_cons]
        rw [List.map_cons, if_neg hac, ← ih2]
        simp

/-- A character-wise map distributes over `joinJS`. -/
theorem map_joinJS (f : Char → Char) (sep : List Char) (parts : List (List Char)) :
    (joinJS sep parts).map f = joinJS (sep.map f) (parts.map (List.map f)) := by
  induction parts with
  | nil => rfl
  | cons x t ih =>
    cases t with
    | nil => rfl
    | cons y t2 =>
      show (x ++ sep ++ joinJS sep (y :: t2)).map f
        = x.map f ++ sep.map f ++ joinJS (sep.map f) ((y :: t2).map (List.map f))
      rw [List.map_append, List.map_append, ih]

/-- The source encoding (join by underscore, then replace every slash by a
dash) equals the spec encoding (replace within each token, then join). -/
theorem encode_eq_specFilterEncode (ts : List (List Char)) :
    joinJS ['-'] (splitJS '/' (joinJS ['_'] ts)) = specFilterEncode ts := by
  rw [joinJS_splitJS]
  rw [map_joinJS]
  rfl

/-- C5: the filter string sent to the server is the filter tokens joined by
underscores with every slash replaced by a dash; an absent quick-filter list,
and one whose encoding is the empty string, are transmitted as the literal
token `noFilter`; and the token appears in the `/filters/` position of the
request path. -/
theorem filter_encoding :
    filterParam none = "noFilter".data
      ∧ (∀ ts : List (List Char),
          filterParam (some ts)
            = if specFilterEncode ts = [] then "noFilter".data else specFilterEncode ts)
      ∧ (∀ (endpoint : List Char) (page : Nat) (f o : List Char)
            (qfv : Option (List (List Char))),
          fetchEmployeesPath endpoint page f o (encodeQuickFilters qfv)
            = endpoint ++ "/page/".data ++ (Nat.repr page).data ++ "/sort/".data ++ f
                ++ "/".data ++ o ++ "/filters/".data ++ filterParam qfv) := by
  refine ⟨rfl, fun ts => ?_, fun endpoint page f o qfv => rfl⟩
  show orNoFilter (some (joinJS ['-'] (splitJS '/' (joinJS ['_'] ts)))) = _
  rw [show orNoFilter (some (joinJS ['-'] (splitJS '/' (joinJS ['_'] ts))))
      = if joinJS ['-'] (splitJS '/' (joinJS ['_'] ts)) = [] then "noFilter".data
        else joinJS ['-'] (splitJS '/' (joinJS ['_'] ts)) from rfl]
  rw [encode_eq_specFilterEncode]

/-- The last client page computed by `usePrefetchEmployees` (services.ts
line 116): `Math.ceil(totalEmployees / pageSize) - 1`; it is `-1` when the
employee list is empty, hence an `Int`. -/
def lastClientPage (totalEmployees pageSize : Nat) : Int :=
  Int.ofNat ((totalEmployees + pageSize - 1) / pageSize) - 1

/-- The `pagesToPrefetch` list built by `usePrefetchEmployees` (services.ts
lines 115-140).  The three zones of the source, with the loops unrolled:
near the start (`currentPage <= 3`) the ascending loop over `0..4` pushes
`i` when `i !== currentPage && i <= lastPage`, then `lastPage` when
`lastPage > 4`; near the end (`currentPage >= lastPage - 3`) the descending
loop over `lastPage..lastPage-4` pushes `i` when `i !== currentPage && i >= 0`,
then `0` when `lastPage - 4 > 0`; in the middle it pushes
`currentPage - 1`, `currentPage + 1`, `0`, `lastPage`. -/
def computePrefetchSet (currentPage lastPage : Int) : List Int :=
  if currentPage ≤ 3 then
    (([0, 1, 2, 3, 4] : List Int).filter
        (fun i => decide (i ≠ currentPage ∧ i ≤ lastPage)))
      ++ (if 4 < lastPage then [lastPage] else [])
  else if lastPage - 3 ≤ currentPage then
    (([lastPage, lastPage - 1, lastPage - 2, lastPage - 3, lastPage - 4] : List Int).filter
        (fun i => decide (i ≠ currentPage ∧ 0 ≤ i)))
      ++ (if 0 < lastPage - 4 then [0] else [])
  else
    [currentPage - 1, currentPage + 1, 0, lastPage]

/-- C6: for every `currentClientPage ≤ 3` and every `lastClientPage`, the
prefetch set is pages 0 through 4 excluding the current page and excluding
any page greater than `lastClientPage`, plus `lastClientPage` itself when
`lastClientPage > 4`; in particular for `lastClientPage = 10` and
`currentClientPage = 1` it is exactly `{0, 2, 3, 4, 10}`. -/
theorem prefetch_near_start (cur last : Int) (h : cur ≤ 3) :
    (∀ p : Int, p ∈ computePrefetchSet cur last
        ↔ (0 ≤ p ∧ p ≤ 4 ∧ p ≠ cur ∧ p ≤ last) ∨ (4 < last ∧ p = last))
      ∧ computePrefetchSet 1 10 = [0, 2, 3, 4, 10] := by
  refine ⟨fun p => ?_, by decide⟩
  unfold computePrefetchSet
  rw [if_pos h]
  rw [List.mem_append, List.mem_filter]
  constructor
  · rintro (⟨hmem, hpred⟩ | hmem)
    · simp only [decide_eq_true_eq] at hpred
      simp only [List.mem_cons, List.not_mem_nil, or_false] at hmem
      left
      refine ⟨by omega, by omega, hpred.1, hpred.2⟩
    · by_cases h4 : 4 < last
      · rw [if_pos h4] at hmem
        simp only [List.mem_cons, List.not_mem_nil, or_false] at hmem
        right
        exact ⟨h4, hmem⟩
      · rw [if_neg h4] at hmem
        simp at hmem
  · rintro (⟨hp0, hp4, hpc, hpl⟩ | ⟨h4, hpl⟩)
    · left
      refine ⟨?_, by simp only [decide_eq_true_eq]; exact ⟨hpc, hpl⟩⟩
      simp only [List.mem_cons, List.not_mem_nil, or_false]
      omega
    · right
      rw [if_pos h4]
      simp [hpl]

/-- C6 witness: the near-start zone at `currentClientPage = 1`,
`lastClientPage = 10`. -/
theorem prefetch_near_start_witness :
    computePrefetchSet 1 10 = [0, 2, 3, 4, 10] :=
  (prefetch_near_start 1 10 (by decide)).2

/-- C7: for every `currentClientPage` strictly between 3 and
`lastClientPage - 3` (the middle zone), the prefetch set is exactly
`{currentClientPage - 1, currentClientPage + 1, 0, lastClientPage}`;
in particular for `currentClientPage = 5`, `lastClientPage = 10` it is
`{4, 6, 0, 10}`. -/
theorem prefetch_middle (cur last : Int) (h1 : 3 < cur) (h2 : cur < last - 3) :
    computePrefetchSet cur last = [cur - 1, cur + 1, 0, last]
      ∧ computePrefetchSet 5 10 = [4, 6, 0, 10] := by
  constructor
  · unfold computePrefetchSet
    rw [if_neg (by omega), if_neg (by omega)]
  · decide

/-- C7 witness: the middle zone at `currentClientPage = 5`,
`lastClientPage = 10`. -/
theorem prefetch_middle_witness :
    computePrefetchSet 5 10 = [4, 6, 0, 10] :=
  (prefetch_middle 5 10 (by decide) (by decide)).2

/-- C10: for every `0 ≤ currentClientPage ≤ lastClientPage` the prefetch list
never contains the current page, has no duplicate page indices, and every
index in it lies within `[0, lastClientPage]`; and when the employee list is
empty (`lastClientPage < 0`) the prefetch list is empty. -/
theorem prefetch_invariants (cur last : Int) :
    (0 ≤ cur → cur ≤ last →
        cur ∉ computePrefetchSet cur last
          ∧ (computePrefetchSet cur last).Nodup
          ∧ ∀ p ∈ computePrefetchSet cur last, 0 ≤ p ∧ p ≤ last)
      ∧ (last < 0 → computePrefetchSet cur last = []) := by
  constructor
  · intro h0 hcl
    unfold computePrefetchSet
    by_cases hb1 : cur ≤ 3
    · rw [if_pos hb1]
      by_cases h4 : 4 < last
      · rw [if_pos h4]
        refine ⟨?_, ?_, ?_⟩
        · simp only [List.mem_append, List.mem_filter, decide_eq_true_eq, List.mem_cons,
            List.not_mem_nil, or_false]
          omega
        · refine List.Nodup.append (List.Nodup.filter _ (by decide)) (by simp) ?_
          intro a ha hb
          simp only [List.mem_filter, decide_eq_true_eq, List.mem_cons,
            List.not_mem_nil, or_false] at ha hb
          omega
        · intro p hp
          simp only [List.mem_append, List.mem_filter, decide_eq_true_eq, List.mem_cons,
            List.not_mem_nil, or_false] at hp
          omega
      · rw [if_neg h4, List.append_nil]
        refine ⟨?_, List.Nodup.filter _ (by decide), ?_⟩
        · simp only [List.mem_filter, decide_eq_true_eq, List.mem_cons,
            List.not_mem_nil, or_false]
          omega
        · intro p hp
          simp only [List.mem_filter, decide_eq_true_eq, List.mem_cons,
            List.not_mem_nil, or_false] at hp
          omega
    · rw [if_neg hb1]
      by_cases hb2 : last - 3 ≤ cur
      · rw [if_pos hb2]
        have hbase : ([last, last - 1, last - 2, last - 3, last - 4] : List Int).Nodup := by
          simp only [List.nodup_cons, List.mem_cons, List.not_mem_nil, or_false,
            List.nodup_nil, not_false_eq_true, and_true, not_or]
          and_intros <;> omega
        by_cases h04 : 0 < last - 4
        · rw [if_pos h04]
          refine ⟨?_, ?_, ?_⟩
          · simp only [List.mem_append, List.mem_filter, decide_eq_true_eq, List.mem_cons,
              List.not_mem_nil, or_false]
            omega
          · refine List.Nodup.append (List.Nodup.filter _ hbase) (by simp) ?_
            intro a ha hb
            simp only [List.mem_filter, decide_eq_true_eq, List.mem_cons,
              List.not_mem_nil, or_false] at ha hb
            omega
          · intro p hp
            simp only [List.mem_append, List.mem_filter, decide_eq_true_eq, List.mem_cons,
              List.not_mem_nil, or_false] at hp
            omega
        · rw [if_neg h04, List.append_nil]
          refine ⟨?_, List.Nodup.filter _ hbase, ?_⟩
          · simp only [List.mem_filter, decide_eq_true_eq, List.mem_cons,
              List.not_mem_nil, or_false]
            omega
          · intro p hp
            simp only [List.mem_filter, decide_eq_true_eq, List.mem_cons,
              List.not_mem_nil, or_false] at hp
            omega
      · rw [if_neg hb2]
        refine ⟨?_, ?_, ?_⟩
        · simp only [List.mem_cons, List.not_mem_nil, or_false]
          omega
        · simp only [List.nodup_cons, List.mem_cons, List.not_mem_nil, or_false,
            List.nodup_nil, not_false_eq_true, and_true, not_or]
          and_intros <;> omega
        · intro p hp
          simp only [List.mem_cons, List.not_mem_nil, or_false] at hp
          omega
  · intro hneg
    unfold computePrefetchSet
    by_cases hb1 : cur ≤ 3
    · rw [if_pos hb1, if_neg (by omega)]
      rw [List.filter_eq_nil_iff.mpr ?_, List.append_nil]
      intro a ha
      simp only [List.mem_cons, List.not_mem_nil, or_false] at ha
      simp only [decide_eq_true_eq, not_and]
      omega
    · rw [if_neg hb1, if_pos (by omega), if_neg (by omega)]
      rw [List.filter_eq_nil_iff.mpr ?_, List.append_nil]
      intro a ha
      simp only [List.mem_cons, List.not_mem_nil, or_false] at ha
      simp only [decide_eq_true_eq, not_and]
      omega

/-- C10 witness: the invariants at `currentClientPage = 1`,
`lastClientPage = 10`, and the empty case at `lastClientPage = -1`
(`lastClientPage 0 10 = -1` for an empty employee list). -/
theorem prefetch_invariants_witness :
    ((1 : Int) ∉ computePrefetchSet 1 10
        ∧ (computePrefetchSet 1 10).Nodup
        ∧ ∀ p ∈ computePrefetchSet 1 10, 0 ≤ p ∧ p ≤ 10)
      ∧ computePrefetchSet 0 (lastClientPage 0 10) = [] :=
  ⟨(prefetch_invariants 1 10).1 (by decide) (by decide),
    (prefetch_invariants 0 (lastClientPage 0 10)).2 (by decide)⟩

/-- Modelled from the spec: the EmployeeRecord attributes (spec section 3);
the `Employee` type lives in the repository's `@types` module, which is not
under src/.  Enumerated attributes are kept as strings. -/
structure Employee where
  id : List Char
  firstName : List Char
  lastName : List Char
  dateOfBirth : List Char
  startDate : List Char
  street : List Char
  city : List Char
  zipcode : List Char
  state : List Char
  department : List Char

/-- A REST call issued through the axios client, tagged by HTTP verb and
request path. -/
inductive RestCall where
  | get : List Char → RestCall
  | post : List Char → RestCall
  | put : List Char → RestCall
  | delete : List Char → RestCall

/-- An observable effect of a mutation's result handlers: the success
callback firing, the error callback firing with the error value, or the
invalidation of the cached `['employees']` query entries. -/
inductive MutEvent (ε : Type) where
  | successCallback : MutEvent ε
  | errorCallback : ε → MutEvent ε
  | invalidateEmployees : MutEvent ε

/-- The single REST call of `useCreateEmployee`'s `mutationFn` (services.ts
lines 192-194): `client.post('/employees', employee)`. -/
def createEmployeeCall (_employee : Employee) : List RestCall :=
  [RestCall.post "/employees".data]

/-- The `onSuccess` handler of `useCreateEmployee` (services.ts lines
195-198): call the caller-supplied callback when present, then invalidate
the `['employees']` queries. -/
def createOnSuccess (ε : Type) (hasCallback : Bool) : List (MutEvent ε) :=
  (if hasCallback then [MutEvent.successCallback] else []) ++ [MutEvent.invalidateEmployees]

/-- The `onError` handler of `useCreateEmployee` (services.ts lines 199-201):
call the caller-supplied callback with the error when present. -/
def createOnError {ε : Type} (hasCallback : Bool) (err : ε) : List (MutEvent ε) :=
  if hasCallback then [MutEvent.errorCallback err] else []

/-- The single REST call of `useDeleteEmployee`'s `mutationFn` (services.ts
lines 221-223): `client.delete('/employees/' + id)`. -/
def deleteEmployeeCall (id : List Char) : List RestCall :=
  [RestCall.delete ("/employees/".data ++ id)]

/-- The `onSuccess` handler of `useDeleteEmployee` (services.ts lines
224-227). -/
def deleteOnSuccess (ε : Type) (hasCallback : Bool) : List (MutEvent ε) :=
  (if hasCallback then [MutEvent.successCallback] else []) ++ [MutEvent.invalidateEmployees]

/-- The `onError` handler of `useDeleteEmployee` (services.ts lines
228-230). -/
def deleteOnError {ε : Type} (hasCallback : Bool) (err : ε) : List (MutEvent ε) :=
  if hasCallback then [MutEvent.errorCallback err] else []

/-- The single REST call of `useUpdateEmployee`'s `mutationFn` (services.ts
lines 247-249): `client.put('/employees/' + employee.id, employee)`. -/
def updateEmployeeCall (employee : Employee) : List RestCall :=
  [RestCall.put ("/employees/".data ++ employee.id)]

/-- The `onSuccess` handler of `useUpdateEmployee` (services.ts lines
250-253). -/
def updateOnSuccess (ε : Type) (hasCallback : Bool) : List (MutEvent ε) :=
  (if hasCallback then [MutEvent.successCallback] else []) ++ [MutEvent.invalidateEmployees]

/-- The `onError` handler of `useUpdateEmployee` (services.ts lines
254-256). -/
def updateOnError {ε : Type} (hasCallback : Bool) (err : ε) : List (MutEvent ε) :=
  if hasCallback then [MutEvent.errorCallback err] else []

/-- Modelled from the spec: the query library's mutation executor
(`useMutation`, an external dependency).  Spec section 4.2: each mutation
sends one REST call, with no retry, then dispatches exactly one of the
`onSuccess` / `onError` handlers according to the outcome. -/
def runMutation {ε : Type} (calls : List RestCall) (onSuccessEvents : List (MutEvent ε))
    (onErrorEvents : ε → List (MutEvent ε)) (outcome : Except ε Unit) :
    List RestCall × List (MutEvent ε) :=
  (calls,
    match outcome with
    | Except.ok _ => onSuccessEvents
    | Except.error e => onErrorEvents e)

/-- One invocation of the `useCreateEmployee` mutation with the given
callbacks present, under the given outcome. -/
def useCreateEmployee {ε : Type} (hasSuccessCb hasErrorCb : Bool) (employee : Employee)
    (outcome : Except ε Unit) : List RestCall × List (MutEvent ε) :=
  runMutation (createEmployeeCall employee) (createOnSuccess ε hasSuccessCb)
    (createOnError hasErrorCb) outcome

/-- One invocation of the `useDeleteEmployee` mutation. -/
def useDeleteEmployee {ε : Type} (hasSuccessCb hasErrorCb : Bool) (id : List Char)
    (outcome : Except ε Unit) : List RestCall × List (MutEvent ε) :=
  runMutation (deleteEmployeeCall id) (deleteOnSuccess ε hasSuccessCb)
    (deleteOnError hasErrorCb) outcome

/-- One invocation of the `useUpdateEmployee` mutation. -/
def useUpdateEmployee {ε : Type} (hasSuccessCb hasErrorCb : Bool) (employee : Employee)
    (outcome : Except ε Unit) : List RestCall × List (MutEvent ε) :=
  runMutation (updateEmployeeCall employee) (updateOnSuccess ε hasSuccessCb)
    (updateOnError hasErrorCb) outcome

/-- The relevant cache state: whether the cached employee-list entries are
still valid (not invalidated). -/
structure QueryCache where
  employeesValid : Bool

/-- Effect of one mutation event on the cache: only
`invalidateEmployees` touches it. -/
def applyMutEvent {ε : Type} (c : QueryCache) : MutEvent ε → QueryCache
  | MutEvent.invalidateEmployees => ⟨false⟩
  | _ => c

/-- Effect of a handler's event list on the cache. -/
def applyMutEvents {ε : Type} (c : QueryCache) (events : List (MutEvent ε)) : QueryCache :=
  events.foldl applyMutEvent c

/-- C8: each of the three mutation hooks sends exactly one REST call per
invocation regardless of outcome (no retry); on success the handler
invalidates the cached employee-list entries; on failure, with a
caller-supplied error callback, the handler invokes that callback with the
error and leaves the cache unchanged. -/
theorem mutation_contract {ε : Type} (employee : Employee) (id : List Char) (err : ε)
    (c : QueryCache) (hasSuccessCb hasErrorCb : Bool) :
    (∀ outcome : Except ε Unit,
        (useCreateEmployee hasSuccessCb hasErrorCb employee outcome).1.length = 1
          ∧ (useDeleteEmployee hasSuccessCb hasErrorCb id outcome).1.length = 1
          ∧ (useUpdateEmployee hasSuccessCb hasErrorCb employee outcome).1.length = 1)
      ∧ ((applyMutEvents c
            (useCreateEmployee (ε := ε) hasSuccessCb hasErrorCb employee
              (Except.ok ())).2).employeesValid = false
          ∧ (applyMutEvents c
              (useDeleteEmployee (ε := ε) hasSuccessCb hasErrorCb id
                (Except.ok ())).2).employeesValid = false
          ∧ (applyMutEvents c
              (useUpdateEmployee (ε := ε) hasSuccessCb hasErrorCb employee
                (Except.ok ())).2).employeesValid = false)
      ∧ (MutEvent.errorCallback err ∈ (useCreateEmployee hasSuccessCb true employee
            (Except.error err)).2
          ∧ applyMutEvents c (useCreateEmployee hasSuccessCb true employee
              (Except.error err)).2 = c)
      ∧ (MutEvent.errorCallback err ∈ (useDeleteEmployee hasSuccessCb true id
            (Except.error err)).2
          ∧ applyMutEvents c (useDeleteEmployee hasSuccessCb true id
              (Except.error err)).2 = c)
      ∧ (MutEvent.errorCallback err ∈ (useUpdateEmployee hasSuccessCb true employee
            (Except.error err)).2
          ∧ applyMutEvents c (useUpdateEmployee hasSuccessCb true employee
              (Except.error err)).2 = c) := by
  refine ⟨fun outcome => ⟨rfl, rfl, rfl⟩, ⟨?_, ?_, ?_⟩, ⟨?_, rfl⟩, ⟨?_, rfl⟩, ⟨?_, rfl⟩⟩
  · cases hasSuccessCb <;> rfl
  · cases hasSuccessCb <;> rfl
  · cases hasSuccessCb <;> rfl
  · exact List.mem_singleton.mpr rfl
  · exact List.mem_singleton.mpr rfl
  · exact List.mem_singleton.mpr rfl

/-- Modelled from the spec: the sorting/filtering options of a request
(`QueryOptionsInterface` lives in the `@types` module, not under src/):
the first sort model entry's field and order, and the quick filter values. -/
structure QueryOptions where
  sortField : Option (List Char)
  sortOrder : Option (List Char)
  quickFilterValues : Option (List (List Char))

/-- The query key of `useEmployees` (services.ts line 63):
`['employees', pageOnServer, queryOptions]` — the cache is keyed per
request tuple. -/
structure QueryKey where
  pageOnServer : Nat
  options : QueryOptions

/-- The key under which a client page request is cached:
`pageOnServer = resolveServerPage` together with the query options. -/
def employeesQueryKey (sps pageOnClient pageSizeOnClient : Nat)
    (options : QueryOptions) : QueryKey :=
  ⟨resolveServerPage sps pageOnClient pageSizeOnClient, options⟩

/-- The `staleTime` passed to the query in `useEmployees` and
`usePrefetchEmployees` (services.ts lines 76 and 162), in milliseconds. -/
def staleTimeMs : Nat := 5000

/-- Modelled from the spec: the query cache's freshness rule (the cache
lives in the query library, an external dependency).  Spec section 4.1:
"results are cached for a short validity window (5 seconds) after which a
repeat request re-fetches" — a request for a key with no cached entry
fetches; a request for a cached key re-fetches exactly when the entry's age
has reached the `staleTime` window. -/
def needsNetworkFetch (cache : QueryKey → Option Nat) (key : QueryKey) (now : Nat) : Bool :=
  match cache key with
  | none => true
  | some fetchedAt => decide (staleTimeMs ≤ now - fetchedAt)

/-- C9: fetch results are cached per request-tuple key with a 5-second
validity window: with a cached entry for the identical key fetched at time
`t`, a repeat fetch at `t + 6000` ms triggers a new network call, while one
at `t + 2000` ms reuses the cached result. -/
theorem cache_expiry (cache : QueryKey → Option Nat) (key : QueryKey) (t : Nat)
    (h : cache key = some t) :
    staleTimeMs = 5000
      ∧ needsNetworkFetch cache key (t + 6000) = true
      ∧ needsNetworkFetch cache key (t + 2000) = false := by
  unfold needsNetworkFetch
  rw [h]
  refine ⟨rfl, ?_, ?_⟩
  · simp only [staleTimeMs, decide_eq_true_eq]
    omega
  · simp only [staleTimeMs, decide_eq_false_iff_not]
    omega

/-- C9 witness: a cache holding an entry fetched at time 0 for a concrete
key. -/
theorem cache_expiry_witness :
    needsNetworkFetch (fun _ => some 0) ⟨0, ⟨none, none, none⟩⟩ (0 + 6000) = true
      ∧ needsNetworkFetch (fun _ => some 0) ⟨0, ⟨none, none, none⟩⟩ (0 + 2000) = false :=
  ⟨(cache_expiry (fun _ => some 0) ⟨0, ⟨none, none, none⟩⟩ 0 rfl).2.1,
    (cache_expiry (fun _ => some 0) ⟨0, ⟨none, none, none⟩⟩ 0 rfl).2.2⟩
